import Mathlib

/-!
Verification development for the gv-api habit-tracking core.

The definitions below are a shallow embedding of `app/habits/service.py`,
`app/habits/repository.py` and `app/habits/models.py`:

* Python `datetime.date` is embedded as a year/month/day record over `Int`
  with the proleptic Gregorian calendar rules of CPython's `datetime`
  module (`_days_in_month`, `_days_before_year`, `_days_before_month`,
  ordinal-based `weekday`, lexicographic comparison).
* Python `Decimal` values are embedded as `Rat` (decimal arithmetic is
  exact, and every decimal is a rational).
* `async` store calls are embedded by passing the store's response (or the
  table contents) explicitly.
* The `while` loops of the streak engine and the period generator are
  embedded as fuel-indexed structural recursions; fuel-independence is
  proved where a claim needs termination.
-/

/-- Embedding of Python `datetime.date`: a year/month/day triple.
Out-of-range triples are representable; `Date.IsValid` carves out the
dates `datetime.date` accepts. -/
structure Date where
  year : Int
  month : Int
  day : Int
deriving DecidableEq, Repr

/-- Gregorian leap-year rule, as in CPython `datetime._is_leap`. -/
def isLeapYear (y : Int) : Bool := y % 4 == 0 && (y % 100 != 0 || y % 400 == 0)

/-- One extra day in a leap year. -/
def leapDay (y : Int) : Int := if isLeapYear y then 1 else 0

/-- Days in month `m` of year `y`, as in CPython `datetime._days_in_month`;
months outside 1..12 default to 31 to make the function total. -/
def daysInMonth (y m : Int) : Int :=
  if m = 2 then 28 + leapDay y
  else if m = 4 ∨ m = 6 ∨ m = 9 ∨ m = 11 then 30
  else 31

/-- Number of days in all years strictly before year `y`, as in CPython
`datetime._days_before_year` (extended to all integers by floor division,
which `Int` division with a positive divisor is). -/
def daysBeforeYear (y : Int) : Int :=
  365 * (y - 1) + (y - 1) / 4 - (y - 1) / 100 + (y - 1) / 400

/-- Cumulative day count of the months before month `m` in a non-leap year. -/
def cumMonthDays (m : Int) : Int :=
  if m ≤ 1 then 0
  else if m = 2 then 31
  else if m = 3 then 59
  else if m = 4 then 90
  else if m = 5 then 120
  else if m = 6 then 151
  else if m = 7 then 181
  else if m = 8 then 212
  else if m = 9 then 243
  else if m = 10 then 273
  else if m = 11 then 304
  else 334

/-- Number of days in year `y` preceding the first of month `m`, as in
CPython `datetime._days_before_month`. -/
def daysBeforeMonth (y m : Int) : Int :=
  cumMonthDays m + (if 3 ≤ m then leapDay y else 0)

/-- Proleptic Gregorian ordinal of a date (day 1 = 0001-01-01), as in
CPython `datetime._ymd2ord`. -/
def Date.toOrdinal (d : Date) : Int :=
  daysBeforeYear d.year + daysBeforeMonth d.year d.month + d.day

/-- The triples that `datetime.date` accepts. -/
def Date.IsValid (d : Date) : Prop :=
  1 ≤ d.month ∧ d.month ≤ 12 ∧ 1 ≤ d.day ∧ d.day ≤ daysInMonth d.year d.month

instance (d : Date) : Decidable d.IsValid := by
  unfold Date.IsValid; infer_instance

/-- Next calendar day (`date + timedelta(days=1)`). -/
def Date.succ (d : Date) : Date :=
  if d.day < daysInMonth d.year d.month then ⟨d.year, d.month, d.day + 1⟩
  else if d.month < 12 then ⟨d.year, d.month + 1, 1⟩
  else ⟨d.year + 1, 1, 1⟩

/-- Previous calendar day (`date - timedelta(days=1)`). -/
def Date.pred (d : Date) : Date :=
  if 1 < d.day then ⟨d.year, d.month, d.day - 1⟩
  else if 1 < d.month then ⟨d.year, d.month - 1, daysInMonth d.year (d.month - 1)⟩
  else ⟨d.year - 1, 12, 31⟩

/-- `date + timedelta(days=n)`. -/
def Date.addDays (d : Date) : Nat → Date
  | 0 => d
  | n + 1 => (d.addDays n).succ

/-- `date - timedelta(days=n)`. -/
def Date.subDays (d : Date) : Nat → Date
  | 0 => d
  | n + 1 => (d.subDays n).pred

/-- Lexicographic key of a date; Python compares dates by their
(year, month, day) tuples. -/
def Date.toLexKey (d : Date) : Int ×ₗ (Int ×ₗ Int) :=
  toLex (d.year, toLex (d.month, d.day))

theorem Date.toLexKey_injective : Function.Injective Date.toLexKey := by
  intro d e h
  have h1 : (d.year, toLex (d.month, d.day)) = (e.year, toLex (e.month, e.day)) :=
    toLex.injective h
  have h2 : d.year = e.year := congrArg Prod.fst h1
  have h3 : (d.month, d.day) = (e.month, e.day) :=
    toLex.injective (congrArg Prod.snd h1)
  have h4 : d.month = e.month := congrArg Prod.fst h3
  have h5 : d.day = e.day := congrArg Prod.snd h3
  cases d; cases e
  simp only at h2 h4 h5
  simp [h2, h4, h5]

instance : LinearOrder Date := LinearOrder.lift' Date.toLexKey Date.toLexKey_injective

/-- Date comparison is the lexicographic comparison of (year, month, day),
as in Python. -/
theorem Date.le_def (d e : Date) :
    d ≤ e ↔ d.year < e.year ∨ (d.year = e.year ∧
      (d.month < e.month ∨ (d.month = e.month ∧ d.day ≤ e.day))) := by
  show d.toLexKey ≤ e.toLexKey ↔ _
  unfold Date.toLexKey
  rw [Prod.Lex.le_iff]
  simp only [Prod.Lex.le_iff, Prod.Lex.lt_iff]

theorem Date.lt_def (d e : Date) :
    d < e ↔ d.year < e.year ∨ (d.year = e.year ∧
      (d.month < e.month ∨ (d.month = e.month ∧ d.day < e.day))) := by
  show d.toLexKey < e.toLexKey ↔ _
  unfold Date.toLexKey
  rw [Prod.Lex.lt_iff]
  simp only [Prod.Lex.lt_iff]

example : (⟨2024, 1, 1⟩ : Date) < ⟨2024, 1, 3⟩ := by decide
example : (-28 : Int) % 12 = 8 := by decide
example : (-28 : Int) / 12 = -3 := by decide
example : Date.IsValid ⟨2024, 2, 29⟩ := by decide
example : ¬ Date.IsValid ⟨2023, 2, 29⟩ := by decide
example : Date.succ ⟨2023, 12, 31⟩ = ⟨2024, 1, 1⟩ := by decide
example : Date.pred ⟨2024, 3, 1⟩ = ⟨2024, 2, 29⟩ := by decide
example : Date.toOrdinal ⟨1, 1, 1⟩ = 1 := by decide
example : Date.toOrdinal ⟨1, 1, 1⟩ % 7 = 1 := by decide

/-! Calendar arithmetic lemmas for the date embedding. -/

theorem daysInMonth_pos (y m : Int) : 1 ≤ daysInMonth y m := by
  unfold daysInMonth leapDay
  split
  · split <;> omega
  · split <;> omega

theorem leapDay_nonneg (y : Int) : 0 ≤ leapDay y := by
  unfold leapDay; split <;> omega

theorem daysBeforeMonth_succ (y m : Int) (h1 : 1 ≤ m) (h2 : m ≤ 11) :
    daysBeforeMonth y (m + 1) = daysBeforeMonth y m + daysInMonth y m := by
  unfold daysBeforeMonth cumMonthDays daysInMonth
  interval_cases m <;> simp <;> omega

theorem daysBeforeMonth_nonneg (y m : Int) (h1 : 1 ≤ m) : 0 ≤ daysBeforeMonth y m := by
  unfold daysBeforeMonth cumMonthDays
  have := leapDay_nonneg y
  split <;> split <;> omega

theorem daysBeforeMonth_add_le (y m : Int) (h1 : 1 ≤ m) (h2 : m ≤ 12) :
    daysBeforeMonth y m + daysInMonth y m ≤ 365 + leapDay y := by
  unfold daysBeforeMonth cumMonthDays daysInMonth
  have := leapDay_nonneg y
  interval_cases m <;> simp <;> omega

theorem daysBeforeMonth_lt (y m m' : Int) (h1 : 1 ≤ m) (h2 : m < m') (h3 : m' ≤ 12) :
    daysBeforeMonth y m + daysInMonth y m ≤ daysBeforeMonth y m' := by
  have key : ∀ k : Int, m + 1 ≤ k → k ≤ 12 →
      daysBeforeMonth y m + daysInMonth y m ≤ daysBeforeMonth y k := by
    refine Int.le_induction ?_ ?_
    · intro _
      have := daysBeforeMonth_succ y m h1 (by omega)
      omega
    · intro k hk ih hk12
      have hs := daysBeforeMonth_succ y k (by omega) (by omega)
      have := daysInMonth_pos y k
      have := ih (by omega)
      omega
  exact key m' (by omega) h3

theorem daysBeforeYear_succ (y : Int) :
    daysBeforeYear (y + 1) = daysBeforeYear y + 365 + leapDay y := by
  unfold daysBeforeYear leapDay isLeapYear
  simp only [Bool.and_eq_true, Bool.or_eq_true, beq_iff_eq, bne_iff_ne, ne_eq,
    decide_eq_true_eq]
  split <;> omega

theorem daysBeforeYear_mono (y y' : Int) (h : y ≤ y') :
    daysBeforeYear y ≤ daysBeforeYear y' := by
  have key : ∀ k : Int, y ≤ k → daysBeforeYear y ≤ daysBeforeYear k := by
    refine Int.le_induction ?_ ?_
    · exact le_refl _
    · intro k hk ih
      rw [daysBeforeYear_succ k]
      have := leapDay_nonneg k
      omega
  exact key y' h

theorem Date.toOrdinal_bounds (d : Date) (h : d.IsValid) :
    daysBeforeYear d.year < d.toOrdinal ∧ d.toOrdinal ≤ daysBeforeYear (d.year + 1) := by
  obtain ⟨h1, h2, h3, h4⟩ := h
  unfold Date.toOrdinal
  have hnn := daysBeforeMonth_nonneg d.year d.month h1
  have hub := daysBeforeMonth_add_le d.year d.month h1 h2
  rw [daysBeforeYear_succ]
  omega

theorem Date.toOrdinal_lt_of_lt (d e : Date) (hd : d.IsValid) (he : e.IsValid)
    (h : d < e) : d.toOrdinal < e.toOrdinal := by
  rw [Date.lt_def] at h
  obtain ⟨hd1, hd2, hd3, hd4⟩ := hd
  obtain ⟨he1, he2, he3, he4⟩ := he
  rcases h with h | ⟨hy, h | ⟨hm, hday⟩⟩
  · have b1 := Date.toOrdinal_bounds d ⟨hd1, hd2, hd3, hd4⟩
    have b2 := Date.toOrdinal_bounds e ⟨he1, he2, he3, he4⟩
    have := daysBeforeYear_mono (d.year + 1) e.year (by omega)
    omega
  · have hmono := daysBeforeMonth_lt e.year d.month e.month hd1 h he2
    have h4' : d.day ≤ daysInMonth e.year d.month := by rw [← hy]; exact hd4
    unfold Date.toOrdinal
    rw [hy]
    omega
  · unfold Date.toOrdinal
    rw [hy, hm]
    omega

theorem Date.toOrdinal_lt_iff (d e : Date) (hd : d.IsValid) (he : e.IsValid) :
    d.toOrdinal < e.toOrdinal ↔ d < e := by
  constructor
  · intro h
    rcases lt_trichotomy d e with h' | h' | h'
    · exact h'
    · subst h'; omega
    · have := Date.toOrdinal_lt_of_lt e d he hd h'
      omega
  · exact Date.toOrdinal_lt_of_lt d e hd he

theorem Date.toOrdinal_le_iff (d e : Date) (hd : d.IsValid) (he : e.IsValid) :
    d.toOrdinal ≤ e.toOrdinal ↔ d ≤ e := by
  rw [← not_lt, ← not_lt, Date.toOrdinal_lt_iff e d he hd]

theorem Date.toOrdinal_inj (d e : Date) (hd : d.IsValid) (he : e.IsValid)
    (h : d.toOrdinal = e.toOrdinal) : d = e := by
  have h1 := (Date.toOrdinal_le_iff d e hd he).mp (by omega)
  have h2 := (Date.toOrdinal_le_iff e d he hd).mp (by omega)
  exact le_antisymm h1 h2

theorem Date.isValid_mk (y m day : Int) :
    (Date.mk y m day).IsValid ↔ 1 ≤ m ∧ m ≤ 12 ∧ 1 ≤ day ∧ day ≤ daysInMonth y m :=
  Iff.rfl

theorem Date.succ_isValid (d : Date) (h : d.IsValid) : d.succ.IsValid := by
  obtain ⟨h1, h2, h3, h4⟩ := h
  unfold Date.succ
  split
  · rw [Date.isValid_mk]
    omega
  · split
    · rw [Date.isValid_mk]
      have := daysInMonth_pos d.year (d.month + 1)
      omega
    · rw [Date.isValid_mk]
      have : daysInMonth (d.year + 1) 1 = 31 := by unfold daysInMonth; norm_num
      omega

theorem Date.toOrdinal_succ (d : Date) (h : d.IsValid) :
    d.succ.toOrdinal = d.toOrdinal + 1 := by
  obtain ⟨h1, h2, h3, h4⟩ := h
  unfold Date.succ
  split
  · unfold Date.toOrdinal
    dsimp only
    omega
  · rename_i hday
    split
    · rename_i hm
      unfold Date.toOrdinal
      dsimp only
      have := daysBeforeMonth_succ d.year d.month h1 (by omega)
      omega
    · rename_i hm
      have hm12 : d.month = 12 := by omega
      unfold Date.toOrdinal
      dsimp only
      rw [daysBeforeYear_succ]
      have hd12 : daysInMonth d.year d.month = 31 := by
        rw [hm12]; unfold daysInMonth; norm_num
      have h334 : daysBeforeMonth d.year d.month = 334 + leapDay d.year := by
        rw [hm12]; unfold daysBeforeMonth cumMonthDays; norm_num
      have h0 : daysBeforeMonth (d.year + 1) 1 = 0 := by
        unfold daysBeforeMonth cumMonthDays; norm_num
      omega

theorem Date.pred_isValid (d : Date) (h : d.IsValid) : d.pred.IsValid := by
  obtain ⟨h1, h2, h3, h4⟩ := h
  unfold Date.pred
  split
  · rw [Date.isValid_mk]
    omega
  · split
    · rw [Date.isValid_mk]
      have := daysInMonth_pos d.year (d.month - 1)
      omega
    · rw [Date.isValid_mk]
      have : daysInMonth (d.year - 1) 12 = 31 := by unfold daysInMonth; norm_num
      omega

theorem Date.toOrdinal_pred (d : Date) (h : d.IsValid) :
    d.pred.toOrdinal = d.toOrdinal - 1 := by
  obtain ⟨h1, h2, h3, h4⟩ := h
  unfold Date.pred
  split
  · unfold Date.toOrdinal
    simp only
    omega
  · rename_i hday
    split
    · rename_i hm
      unfold Date.toOrdinal
      dsimp only
      have key := daysBeforeMonth_succ d.year (d.month - 1) (by omega) (by omega)
      rw [show d.month - 1 + 1 = d.month by omega] at key
      omega
    · rename_i hm
      have hm1 : d.month = 1 := by omega
      unfold Date.toOrdinal
      dsimp only
      have k1 : daysBeforeYear d.year =
          daysBeforeYear (d.year - 1) + 365 + leapDay (d.year - 1) := by
        have := daysBeforeYear_succ (d.year - 1)
        rw [show d.year - 1 + 1 = d.year by omega] at this
        exact this
      have k2 : daysBeforeMonth (d.year - 1) 12 = 334 + leapDay (d.year - 1) := by
        unfold daysBeforeMonth cumMonthDays; norm_num
      have k3 : daysBeforeMonth d.year d.month = 0 := by
        rw [hm1]; unfold daysBeforeMonth cumMonthDays; norm_num
      omega

theorem Date.pred_lt (d : Date) (h : d.IsValid) : d.pred < d := by
  rw [← Date.toOrdinal_lt_iff _ _ (Date.pred_isValid d h) h, Date.toOrdinal_pred d h]
  omega

theorem Date.lt_succ (d : Date) (h : d.IsValid) : d < d.succ := by
  rw [← Date.toOrdinal_lt_iff _ _ h (Date.succ_isValid d h), Date.toOrdinal_succ d h]
  omega

theorem Date.addDays_isValid (d : Date) (n : Nat) (h : d.IsValid) :
    (d.addDays n).IsValid := by
  induction n with
  | zero => exact h
  | succ k ih => exact Date.succ_isValid _ ih

theorem Date.toOrdinal_addDays (d : Date) (n : Nat) (h : d.IsValid) :
    (d.addDays n).toOrdinal = d.toOrdinal + n := by
  induction n with
  | zero => simp [Date.addDays]
  | succ k ih =>
    unfold Date.addDays
    rw [Date.toOrdinal_succ _ (Date.addDays_isValid d k h), ih]
    push_cast
    ring

theorem Date.subDays_isValid (d : Date) (n : Nat) (h : d.IsValid) :
    (d.subDays n).IsValid := by
  induction n with
  | zero => exact h
  | succ k ih => exact Date.pred_isValid _ ih

theorem Date.toOrdinal_subDays (d : Date) (n : Nat) (h : d.IsValid) :
    (d.subDays n).toOrdinal = d.toOrdinal - n := by
  induction n with
  | zero => simp [Date.subDays]
  | succ k ih =>
    unfold Date.subDays
    rw [Date.toOrdinal_pred _ (Date.subDays_isValid d k h), ih]
    push_cast
    ring

/-! Domain model: the enums and `Habit` record of `app/habits/enums.py` and
`app/habits/models.py` (the fields the statistics core reads). -/

inductive TargetFrequency
  | daily
  | weekly
  | monthly
deriving DecidableEq, Repr

inductive ValueType
  | boolean
  | numeric
deriving DecidableEq, Repr

inductive ComparisonType
  | equals
  | greater_than
  | less_than
  | greater_equal_than
  | less_equal_than
  | in_range
deriving DecidableEq, Repr

/-- The `Habit` ORM model (`app/habits/models.py`), restricted to the fields
the statistics/streak/log services read. `Decimal` columns are embedded as
`Rat`. -/
structure Habit where
  value_type : ValueType
  frequency : TargetFrequency
  target_value : Option Rat
  target_min : Option Rat
  target_max : Option Rat
  comparison_type : Option ComparisonType
  start_date : Option Date
  end_date : Option Date
  is_required : Bool
deriving DecidableEq, Repr

/-- Python `date.weekday()`: Monday is 0; ordinal 1 (0001-01-01) was a Monday. -/
def Date.weekday (d : Date) : Int := (d.toOrdinal - 1) % 7

/-- `HabitService._get_period_boundaries`. -/
def getPeriodBoundaries (frequency : TargetFrequency) (target_date : Date) : Date × Date :=
  match frequency with
  | .daily => (target_date, target_date)
  | .weekly =>
    let start := target_date.subDays target_date.weekday.toNat
    (start, start.addDays 6)
  | .monthly =>
    let start : Date := ⟨target_date.year, target_date.month, 1⟩
    let stop : Date :=
      if target_date.month = 12 then ⟨target_date.year, 12, 31⟩
      else (Date.mk target_date.year (target_date.month + 1) 1).pred
    (start, stop)

/-- `HabitService._get_periods_ago`; the monthly case's
`while month <= 0: month += 12; year -= 1` loop is written in its closed
form with floor division (`Int` division by a positive divisor). -/
def getPeriodsAgo (frequency : TargetFrequency) (target_date : Date) (periods : Nat) : Date :=
  match frequency with
  | .daily => target_date.subDays periods
  | .weekly => target_date.subDays (7 * periods)
  | .monthly =>
    let m0 : Int := target_date.month - periods
    ⟨target_date.year + (m0 - 1) / 12, (m0 - 1) % 12 + 1, 1⟩

/-- `HabitService._count_periods_between`; Python date subtraction
`(a - b).days` is the ordinal difference and `//` is floor division. -/
def countPeriodsBetween (frequency : TargetFrequency) (start_date end_date : Date) : Int :=
  if end_date < start_date then 0
  else
    match frequency with
    | .daily => (end_date.toOrdinal - start_date.toOrdinal) + 1
    | .weekly =>
      let start_week := start_date.subDays start_date.weekday.toNat
      let end_week := end_date.subDays end_date.weekday.toNat
      (end_week.toOrdinal - start_week.toOrdinal) / 7 + 1
    | .monthly =>
      (end_date.year - start_date.year) * 12 + (end_date.month - start_date.month) + 1

/-- `HabitService._check_target_met`: the in-memory Target Evaluator. -/
def checkTargetMet (habit : Habit) (value : Rat) : Bool :=
  if habit.value_type = ValueType.boolean then value == 1
  else
    match habit.comparison_type, habit.target_value with
    | none, _ => true
    | some _, none => true
    | some c, some target_value =>
      match c with
      | .equals => value == target_value
      | .greater_than => decide (target_value < value)
      | .less_than => decide (value < target_value)
      | .greater_equal_than => decide (target_value ≤ value)
      | .less_equal_than => decide (value ≤ target_value)
      | .in_range =>
        match habit.target_min, habit.target_max with
        | some lo, some hi => decide (lo ≤ value) && decide (value ≤ hi)
        | _, _ => true

/-- Boolean semantics of `HabitLogRepository._build_comparison_expression`
applied to a period sum inside the query's HAVING clause.  SQLAlchemy
renders `expr == None` as `expr IS NULL`, and any other comparison against
a Python `None` as a comparison against SQL `NULL`; neither is satisfied
by the `SUM` of a non-empty group over the non-nullable `value` column, so
a comparison with an absent `target_value` admits no group.  `true()` is
the constant-true predicate. -/
def sqlSumTargetMet (habit : Habit) (sumValue : Rat) : Bool :=
  match habit.comparison_type with
  | none =>
    match habit.target_value with
    | some t => decide (t ≤ sumValue)
    | none => true
  | some c =>
    match c with
    | .equals =>
      match habit.target_value with
      | some t => sumValue == t
      | none => false
    | .greater_than =>
      match habit.target_value with
      | some t => decide (t < sumValue)
      | none => false
    | .less_than =>
      match habit.target_value with
      | some t => decide (sumValue < t)
      | none => false
    | .greater_equal_than =>
      match habit.target_value with
      | some t => decide (t ≤ sumValue)
      | none => false
    | .less_equal_than =>
      match habit.target_value with
      | some t => decide (sumValue ≤ t)
      | none => false
    | .in_range =>
      match habit.target_min, habit.target_max with
      | some lo, some hi => decide (lo ≤ sumValue) && decide (sumValue ≤ hi)
      | _, _ => true

/-- A boolean habit with no comparison configured; this configuration is
accepted by `validate_target_config`. -/
def booleanNoTargetHabit : Habit :=
  ⟨ValueType.boolean, TargetFrequency.daily, none, none, none, none, none, none, true⟩

/-- A numeric greater-or-equal habit with target 8 (the spec's own example
configuration). -/
def gteHabit : Habit :=
  ⟨ValueType.numeric, TargetFrequency.daily, some 8, none, none,
    some ComparisonType.greater_equal_than, none, none, true⟩

/-- C1 (counterexample): the store-side comparison and the in-memory Target
Evaluator disagree on boolean habits: for a boolean habit with no
comparison_type and no target_value, a summed value of 0 satisfies the SQL
predicate (`true()`) but not the Target Evaluator (`value == 1`). -/
theorem c1_counterexample :
    sqlSumTargetMet booleanNoTargetHabit 0 = true ∧
    checkTargetMet booleanNoTargetHabit 0 = false := by
  constructor <;> rfl

/-- C1 (amended): for every habit with numeric value_type in which
comparison_type and target_value are either both present or both absent,
the SQL predicate built by `_build_comparison_expression` applied to a
period sum decides target-met exactly as the in-memory `_check_target_met`
does on the same summed value. -/
theorem c1_amended (habit : Habit) (v : Rat)
    (hnum : habit.value_type = ValueType.numeric)
    (hpres : habit.comparison_type.isSome = habit.target_value.isSome) :
    sqlSumTargetMet habit v = checkTargetMet habit v := by
  unfold sqlSumTargetMet checkTargetMet
  rw [hnum]
  cases hc : habit.comparison_type with
  | none =>
    cases ht : habit.target_value with
    | none => simp
    | some t => rw [hc, ht] at hpres; simp at hpres
  | some c =>
    cases ht : habit.target_value with
    | none => rw [hc, ht] at hpres; simp at hpres
    | some t =>
      cases c <;> simp only [reduceIte]
      case in_range => cases habit.target_min <;> cases habit.target_max <;> rfl
      all_goals rfl

/-- C1 (amended, witness): the two predicates agree on the numeric
greater-or-equal habit at value 5. -/
theorem c1_amended_witness :
    sqlSumTargetMet gteHabit 5 = checkTargetMet gteHabit 5 :=
  c1_amended gteHabit 5 rfl rfl

/-- C3: `isTargetMet` (the Target Evaluator `_check_target_met`) follows the
documented decision rule: boolean habits are met iff the value is 1;
otherwise an absent comparison_type or absent target_value means met;
otherwise the five scalar comparisons compare the value against
target_value directly, and in_range checks target_min <= v <= target_max,
holding vacuously when either bound is absent. -/
theorem c3_target_evaluator (habit : Habit) (v : Rat) :
    (habit.value_type = ValueType.boolean →
      (checkTargetMet habit v = true ↔ v = 1)) ∧
    (habit.value_type = ValueType.numeric →
      ((habit.comparison_type = none ∨ habit.target_value = none) →
        checkTargetMet habit v = true) ∧
      (∀ t : Rat, habit.target_value = some t →
        ((habit.comparison_type = some ComparisonType.equals →
            (checkTargetMet habit v = true ↔ v = t)) ∧
         (habit.comparison_type = some ComparisonType.greater_than →
            (checkTargetMet habit v = true ↔ t < v)) ∧
         (habit.comparison_type = some ComparisonType.less_than →
            (checkTargetMet habit v = true ↔ v < t)) ∧
         (habit.comparison_type = some ComparisonType.greater_equal_than →
            (checkTargetMet habit v = true ↔ t ≤ v)) ∧
         (habit.comparison_type = some ComparisonType.less_equal_than →
            (checkTargetMet habit v = true ↔ v ≤ t)) ∧
         (habit.comparison_type = some ComparisonType.in_range →
            ((∀ lo hi : Rat, habit.target_min = some lo → habit.target_max = some hi →
               (checkTargetMet habit v = true ↔ lo ≤ v ∧ v ≤ hi)) ∧
             ((habit.target_min = none ∨ habit.target_max = none) →
               checkTargetMet habit v = true)))))) := by
  refine ⟨?_, fun hn => ⟨?_, ?_⟩⟩
  · intro hb
    simp [checkTargetMet, hb]
  · intro hnone
    rcases hnone with hc | ht
    · simp [checkTargetMet, hn, hc]
    · cases hc : habit.comparison_type with
      | none => simp [checkTargetMet, hn, hc]
      | some c => simp [checkTargetMet, hn, hc, ht]
  · intro t ht
    refine ⟨?_, ?_, ?_, ?_, ?_, ?_⟩ <;> intro hc
    · simp [checkTargetMet, hn, hc, ht]
    · simp [checkTargetMet, hn, hc, ht]
    · simp [checkTargetMet, hn, hc, ht]
    · simp [checkTargetMet, hn, hc, ht]
    · simp [checkTargetMet, hn, hc, ht]
    · constructor
      · intro lo hi hlo hhi
        simp [checkTargetMet, hn, hc, ht, hlo, hhi]
      · intro hbound
        rcases hbound with hlo | hhi
        · simp [checkTargetMet, hn, hc, ht, hlo]
        · cases hlo : habit.target_min <;>
            simp [checkTargetMet, hn, hc, ht, hlo, hhi]

/-- C3 (witness): the greater-or-equal habit with target 8 is met at
value 10. -/
theorem c3_witness : checkTargetMet gteHabit 10 = true := by
  have h := (c3_target_evaluator gteHabit 10).2 rfl
  have h2 := ((h.2 8 rfl).2.2.2.1) rfl
  exact h2.mpr (by norm_num)

/-! Streak engine: `_dates_in_range`, `_calculate_current_streak`,
`_calculate_longest_streak`, `_calculate_streaks` from
`app/habits/service.py`.  Python `set[date]` is embedded as `Finset Date`;
the `while` loops are fuel-indexed. -/

/-- `HabitService._dates_in_range`, fuel-indexed (`while current <= end`). -/
def datesInRangeAux : Nat → Date → Date → List Date
  | 0, _, _ => []
  | fuel + 1, current, stop =>
    if current ≤ stop then current :: datesInRangeAux fuel current.succ stop else []

/-- `HabitService._dates_in_range`: all dates from `start` to `stop`
inclusive.  The loop advances one day per iteration, so fuel equal to the
ordinal distance plus one is exact. -/
def datesInRange (start stop : Date) : List Date :=
  datesInRangeAux ((stop.toOrdinal - start.toOrdinal).toNat + 1) start stop

/-- `min(all_log_dates) if all_log_dates else today` from
`_calculate_current_streak`. -/
def minLogDate (all_log_dates : Finset Date) (today : Date) : Date :=
  if h : all_log_dates.Nonempty then all_log_dates.min' h else today

/-- One iteration of `_calculate_current_streak`'s `while True` loop.
The body either breaks (returning the accumulated streak) or increments
the streak; after an increment the loop moves `check_date` to the day
before the period start and breaks if the streak exceeds 1000 or the new
check date's year precedes 2000.  `recur` is the rest of the loop. -/
def currentStreakStep (habit : Habit) (dates_met all_log_dates : Finset Date)
    (min_log_date : Date) (recur : Date → Nat → Nat)
    (check_date : Date) (streak : Nat) : Nat :=
  let pb := getPeriodBoundaries habit.frequency check_date
  if (datesInRange pb.1 pb.2).any (fun d => d ∈ dates_met) then
    if 1000 < streak + 1 ∨ pb.1.pred.year < 2000 then streak + 1
    else recur pb.1.pred (streak + 1)
  else if habit.is_required then streak
  else if (datesInRange pb.1 pb.2).any (fun d => d ∈ all_log_dates) then streak
  else if pb.2 < min_log_date then streak
  else if 1000 < streak + 1 ∨ pb.1.pred.year < 2000 then streak + 1
  else recur pb.1.pred (streak + 1)

/-- The `while True` loop of `_calculate_current_streak`, fuel-indexed. -/
def currentStreakAux (habit : Habit) (dates_met all_log_dates : Finset Date)
    (min_log_date : Date) : Nat → Date → Nat → Nat
  | 0, _, streak => streak
  | fuel + 1, check_date, streak =>
    currentStreakStep habit dates_met all_log_dates min_log_date
      (currentStreakAux habit dates_met all_log_dates min_log_date fuel)
      check_date streak

/-- `HabitService._calculate_current_streak`.  Every iteration of the loop
either breaks or increments the streak, and the safety bound breaks once
the streak exceeds 1000, so 1002 iterations always reach a break;
fuel-independence past this bound is `c8_current_streak_bounded`. -/
def calculateCurrentStreak (habit : Habit) (today : Date)
    (dates_met all_log_dates : Finset Date) : Nat :=
  currentStreakAux habit dates_met all_log_dates (minLogDate all_log_dates today)
    1002 today 0

/-- The forward `while check_date <= max_date` loop of
`_calculate_longest_streak`, fuel-indexed; the state is the current run
and the longest run seen so far. -/
def longestStreakAux (habit : Habit) (dates_met all_log_dates : Finset Date)
    (max_date : Date) : Nat → Date → Nat → Nat → Nat
  | 0, _, _, longest => longest
  | fuel + 1, check_date, current, longest =>
    if check_date ≤ max_date then
      let pb := getPeriodBoundaries habit.frequency check_date
      if (datesInRange pb.1 pb.2).any (fun d => d ∈ dates_met) then
        longestStreakAux habit dates_met all_log_dates max_date fuel pb.2.succ
          (current + 1) (max longest (current + 1))
      else if habit.is_required then
        longestStreakAux habit dates_met all_log_dates max_date fuel pb.2.succ 0 longest
      else if (datesInRange pb.1 pb.2).any (fun d => d ∈ all_log_dates) then
        longestStreakAux habit dates_met all_log_dates max_date fuel pb.2.succ 0 longest
      else
        longestStreakAux habit dates_met all_log_dates max_date fuel pb.2.succ
          (current + 1) (max longest (current + 1))
    else longest

/-- `HabitService._calculate_longest_streak`: scans period-by-period from
the earliest to the latest date in `dates_met`.  Each iteration advances
`check_date` past the period end, i.e. by at least one day, so fuel equal
to the ordinal distance plus one is enough for every valid input. -/
def calculateLongestStreak (habit : Habit)
    (dates_met all_log_dates : Finset Date) : Nat :=
  if h : dates_met.Nonempty then
    longestStreakAux habit dates_met all_log_dates (dates_met.max' h)
      (((dates_met.max' h).toOrdinal - (dates_met.min' h).toOrdinal).toNat + 1)
      (dates_met.min' h) 0 0
  else 0

/-- `HabitService._calculate_streaks`. -/
def calculateStreaks (habit : Habit) (today : Date)
    (dates_met all_log_dates : Finset Date) : Nat × Nat :=
  if dates_met = ∅ then (0, 0)
  else
    (calculateCurrentStreak habit today dates_met all_log_dates,
     calculateLongestStreak habit dates_met all_log_dates)

/-- A concrete reference date used in concrete evaluations: 2024-05-10. -/
def sampleToday : Date := ⟨2024, 5, 10⟩

/-- C2 (evaluation at the failing input): for the boolean habit with no
comparison_type and no target_value, with target-met logs on today and the
two preceding days — the scenario of the repo's own
`test_current_streak_with_consecutive_days` — `_calculate_streaks` returns
the integer pair (3, 3), and with no logs it returns (0, 0).  The function
always returns integers (the schema field is `current_streak: int`), never
an undefined/null marker. -/
theorem c2_code_evaluation :
    calculateStreaks booleanNoTargetHabit sampleToday
      {sampleToday, sampleToday.pred, sampleToday.pred.pred}
      {sampleToday, sampleToday.pred, sampleToday.pred.pred} = (3, 3) ∧
    calculateStreaks booleanNoTargetHabit sampleToday ∅ ∅ = (0, 0) := by
  constructor <;> decide

/-! Termination and bound lemmas for the backward streak walk (claim C8).
Every iteration of the loop either breaks or increments the streak, and
the safety bound breaks as soon as the streak passes 1000, so the walk is
insensitive to any fuel past 1001 remaining steps. -/

theorem currentStreakAux_le (habit : Habit) (D A : Finset Date) (m : Date) :
    ∀ (fuel : Nat) (cd : Date) (s : Nat), s ≤ 1000 →
      currentStreakAux habit D A m fuel cd s ≤ 1001 := by
  intro fuel
  induction fuel with
  | zero =>
    intro cd s hs
    simp only [currentStreakAux]
    omega
  | succ k ih =>
    intro cd s hs
    simp only [currentStreakAux, currentStreakStep]
    split
    · split
      · omega
      · rename_i hc
        exact ih _ (s + 1) (by omega)
    · split
      · omega
      · split
        · omega
        · split
          · omega
          · split
            · omega
            · rename_i hc
              exact ih _ (s + 1) (by omega)

theorem le_currentStreakAux (habit : Habit) (D A : Finset Date) (m : Date) :
    ∀ (fuel : Nat) (cd : Date) (s : Nat),
      s ≤ currentStreakAux habit D A m fuel cd s := by
  intro fuel
  induction fuel with
  | zero =>
    intro cd s
    simp only [currentStreakAux]
    omega
  | succ k ih =>
    intro cd s
    simp only [currentStreakAux, currentStreakStep]
    split
    · split
      · omega
      · have := ih ((getPeriodBoundaries habit.frequency cd).1.pred) (s + 1)
        omega
    · split
      · omega
      · split
        · omega
        · split
          · omega
          · split
            · omega
            · have := ih ((getPeriodBoundaries habit.frequency cd).1.pred) (s + 1)
              omega

theorem currentStreakStep_congr (habit : Habit) (D A : Finset Date) (m : Date)
    (f g : Date → Nat → Nat) (cd : Date) (s : Nat)
    (h : ∀ cd', s + 1 ≤ 1000 → f cd' (s + 1) = g cd' (s + 1)) :
    currentStreakStep habit D A m f cd s = currentStreakStep habit D A m g cd s := by
  simp only [currentStreakStep]
  split
  · split
    · rfl
    · rename_i hc
      exact h _ (by omega)
  · split
    · rfl
    · split
      · rfl
      · split
        · rfl
        · split
          · rfl
          · rename_i hc
            exact h _ (by omega)

theorem currentStreakAux_stable (habit : Habit) (D A : Finset Date) (m : Date) :
    ∀ (f1 f2 : Nat) (cd : Date) (s : Nat), 1001 - s < f1 → 1001 - s < f2 →
      currentStreakAux habit D A m f1 cd s = currentStreakAux habit D A m f2 cd s := by
  intro f1
  induction f1 with
  | zero =>
    intro f2 cd s h1 h2
    omega
  | succ k ih =>
    intro f2 cd s h1 h2
    cases f2 with
    | zero => omega
    | succ l =>
      simp only [currentStreakAux]
      apply currentStreakStep_congr
      intro cd' hs
      exact ih l cd' (s + 1) (by omega) (by omega)

/-- C8: for arbitrary habit, reference date and (finite) date sets, the
backward walk of `_calculate_current_streak` terminates: any fuel past the
1001-iteration budget forced by the safety bound (`streak > 1000` or a
walked-back year before 2000) computes the same value, and the returned
streak is a non-negative integer of at most 1001; hitting the bound
truncates the count instead of raising an error. -/
theorem c8_current_streak_bounded (habit : Habit) (today : Date)
    (dates_met all_log_dates : Finset Date) (fuel : Nat) (hfuel : 1001 < fuel) :
    currentStreakAux habit dates_met all_log_dates
        (minLogDate all_log_dates today) fuel today 0 =
      calculateCurrentStreak habit today dates_met all_log_dates ∧
    calculateCurrentStreak habit today dates_met all_log_dates ≤ 1001 := by
  unfold calculateCurrentStreak
  constructor
  · exact currentStreakAux_stable habit dates_met all_log_dates
      (minLogDate all_log_dates today) fuel 1002 today 0 (by omega) (by omega)
  · exact currentStreakAux_le habit dates_met all_log_dates
      (minLogDate all_log_dates today) 1002 today 0 (by omega)

/-- C8 (witness): the bound theorem applied at fuel 5000 on a concrete
habit and empty log sets. -/
theorem c8_witness :
    (currentStreakAux booleanNoTargetHabit ∅ ∅ (minLogDate ∅ sampleToday)
        5000 sampleToday 0 =
      calculateCurrentStreak booleanNoTargetHabit sampleToday ∅ ∅) ∧
    calculateCurrentStreak booleanNoTargetHabit sampleToday ∅ ∅ ≤ 1001 :=
  c8_current_streak_bounded booleanNoTargetHabit sampleToday ∅ ∅ 5000 (by norm_num)

/-! Monotonicity of the backward streak walk (claim C7): adding one date to
both `dates_met` and `all_log_dates` never decreases the walk's result. -/

theorem listAny_mem_mono (l : List Date) (D D' : Finset Date) (hsub : D ⊆ D')
    (h : l.any (fun x => x ∈ D) = true) : l.any (fun x => x ∈ D') = true := by
  simp only [List.any_eq_true, decide_eq_true_eq] at h ⊢
  obtain ⟨x, hx, hxD⟩ := h
  exact ⟨x, hx, hsub hxD⟩

theorem listAny_insert_eq_of_not_met (l : List Date) (D A : Finset Date) (d : Date)
    (hmet : l.any (fun x => x ∈ insert d D) = false) :
    l.any (fun x => x ∈ insert d A) = l.any (fun x => x ∈ A) := by
  have hd : ∀ x ∈ l, x ≠ d := by
    intro x hx hxd
    have hx' : l.any (fun x => x ∈ insert d D) = true := by
      simp only [List.any_eq_true, decide_eq_true_eq]
      exact ⟨x, hx, by rw [hxd]; exact Finset.mem_insert_self d D⟩
    rw [hx'] at hmet
    cases hmet
  cases h : l.any (fun x => x ∈ A) with
  | true =>
    simp only [List.any_eq_true, decide_eq_true_eq] at h ⊢
    obtain ⟨x, hx, hxA⟩ := h
    exact ⟨x, hx, Finset.mem_insert_of_mem hxA⟩
  | false =>
    simp only [List.any_eq_false, decide_eq_true_eq] at h ⊢
    intro x hx hmem
    rcases Finset.mem_insert.mp hmem with h1 | h2
    · exact hd x hx h1
    · exact h x hx h2

theorem continueStep_le (f g : Date → Nat → Nat) (cd' : Date) (s s' : Nat)
    (hss : s ≤ s')
    (hfub : s + 1 ≤ 1000 → f cd' (s + 1) ≤ 1001)
    (hrec : f cd' (s + 1) ≤ g cd' (s' + 1)) :
    (if 1000 < s + 1 ∨ cd'.year < 2000 then s + 1 else f cd' (s + 1)) ≤
      (if 1000 < s' + 1 ∨ cd'.year < 2000 then s' + 1 else g cd' (s' + 1)) := by
  by_cases h1 : 1000 < s + 1 ∨ cd'.year < 2000
  · rw [if_pos h1]
    by_cases h2 : 1000 < s' + 1 ∨ cd'.year < 2000
    · rw [if_pos h2]
      omega
    · exfalso
      omega
  · rw [if_neg h1]
    by_cases h2 : 1000 < s' + 1 ∨ cd'.year < 2000
    · rw [if_pos h2]
      have := hfub (by omega)
      omega
    · rw [if_neg h2]
      exact hrec

theorem le_continueStep (g : Date → Nat → Nat) (cd' : Date) (s' : Nat)
    (hglb : ∀ t, t ≤ g cd' t) :
    s' + 1 ≤ (if 1000 < s' + 1 ∨ cd'.year < 2000 then s' + 1 else g cd' (s' + 1)) := by
  split
  · omega
  · exact hglb _

theorem streakBody_mono (req pm pm' lg lg' : Bool) (pe m m' cd' : Date)
    (f g : Date → Nat → Nat) (s s' : Nat)
    (hss : s ≤ s') (hm : m' ≤ m)
    (hpm : pm = true → pm' = true)
    (hlg : pm' = false → lg' = lg)
    (hfub : s + 1 ≤ 1000 → f cd' (s + 1) ≤ 1001)
    (hglb : ∀ t, t ≤ g cd' t)
    (hrec : f cd' (s + 1) ≤ g cd' (s' + 1)) :
    (if pm then (if 1000 < s + 1 ∨ cd'.year < 2000 then s + 1 else f cd' (s + 1))
     else if req then s
     else if lg then s
     else if pe < m then s
     else (if 1000 < s + 1 ∨ cd'.year < 2000 then s + 1 else f cd' (s + 1))) ≤
    (if pm' then (if 1000 < s' + 1 ∨ cd'.year < 2000 then s' + 1 else g cd' (s' + 1))
     else if req then s'
     else if lg' then s'
     else if pe < m' then s'
     else (if 1000 < s' + 1 ∨ cd'.year < 2000 then s' + 1 else g cd' (s' + 1))) := by
  have hcont := continueStep_le f g cd' s s' hss hfub hrec
  have hge := le_continueStep g cd' s' hglb
  by_cases hpm'c : pm' = true
  · rw [if_pos hpm'c]
    by_cases hpmc : pm = true
    · rw [if_pos hpmc]
      exact hcont
    · rw [if_neg hpmc]
      by_cases hreq : req = true
      · rw [if_pos hreq]
        omega
      · rw [if_neg hreq]
        by_cases hlgc : lg = true
        · rw [if_pos hlgc]
          omega
        · rw [if_neg hlgc]
          by_cases hpe : pe < m
          · rw [if_pos hpe]
            omega
          · rw [if_neg hpe]
            exact hcont
  · rw [if_neg hpm'c]
    have hpm_neg : ¬ pm = true := fun h => hpm'c (hpm h)
    rw [if_neg hpm_neg]
    have hpm'f : pm' = false := by
      cases pm' with
      | true => exact absurd rfl hpm'c
      | false => rfl
    rw [hlg hpm'f]
    by_cases hreq : req = true
    · rw [if_pos hreq, if_pos hreq]
      omega
    · rw [if_neg hreq, if_neg hreq]
      by_cases hlgc : lg = true
      · rw [if_pos hlgc, if_pos hlgc]
        omega
      · rw [if_neg hlgc, if_neg hlgc]
        by_cases hpe' : pe < m'
        · rw [if_pos hpe', if_pos (lt_of_lt_of_le hpe' hm)]
          omega
        · rw [if_neg hpe']
          by_cases hpe : pe < m
          · rw [if_pos hpe]
            omega
          · rw [if_neg hpe]
            exact hcont

theorem currentStreakAux_mono (habit : Habit) (D A : Finset Date) (d : Date) (m m' : Date)
    (hm : m' ≤ m) :
    ∀ (fuel : Nat) (cd : Date) (s s' : Nat), s ≤ s' →
      currentStreakAux habit D A m fuel cd s ≤
        currentStreakAux habit (insert d D) (insert d A) m' fuel cd s' := by
  intro fuel
  induction fuel with
  | zero =>
    intro cd s s' hss
    simpa only [currentStreakAux] using hss
  | succ k ih =>
    intro cd s s' hss
    simp only [currentStreakAux, currentStreakStep]
    apply streakBody_mono
    · exact hss
    · exact hm
    · exact listAny_mem_mono _ D (insert d D) (Finset.subset_insert d D)
    · exact listAny_insert_eq_of_not_met _ D A d
    · intro h1000
      exact currentStreakAux_le habit D A m k _ (s + 1) (by omega)
    · intro t
      exact le_currentStreakAux habit (insert d D) (insert d A) m' k _ t
    · exact ih _ (s + 1) (s' + 1) (by omega)

theorem minLogDate_insert_le (A : Finset Date) (today d : Date) (hd : d ≤ today) :
    minLogDate (insert d A) today ≤ minLogDate A today := by
  unfold minLogDate
  rw [dif_pos (Finset.insert_nonempty d A)]
  split
  · rename_i h
    exact Finset.min'_le (insert d A) (A.min' h)
      (Finset.mem_insert_of_mem (Finset.min'_mem A h))
  · exact le_trans
      (Finset.min'_le (insert d A) d (Finset.mem_insert_self d A)) hd

/-- C7: extending both `dates_met` and `all_log_dates` by one date that is
not after `today` never decreases the current streak computed by
`_calculate_current_streak`; in particular, adding a newly-met date in the
period immediately preceding the earliest period counted by the current
streak (with `all_log_dates` extended to include it) never decreases the
returned value. -/
theorem c7_streak_monotone (habit : Habit) (today : Date)
    (dates_met all_log_dates : Finset Date) (d : Date) (hd : d ≤ today) :
    calculateCurrentStreak habit today dates_met all_log_dates ≤
      calculateCurrentStreak habit today (insert d dates_met) (insert d all_log_dates) := by
  unfold calculateCurrentStreak
  exact currentStreakAux_mono habit dates_met all_log_dates d
    (minLogDate all_log_dates today) (minLogDate (insert d all_log_dates) today)
    (minLogDate_insert_le all_log_dates today d hd) 1002 today 0 0 le_rfl

/-- C7 (witness): adding the previous day to the met and logged sets does
not decrease the streak in a concrete instance. -/
theorem c7_witness :
    calculateCurrentStreak booleanNoTargetHabit sampleToday {sampleToday} {sampleToday} ≤
      calculateCurrentStreak booleanNoTargetHabit sampleToday
        (insert sampleToday.pred {sampleToday}) (insert sampleToday.pred {sampleToday}) :=
  c7_streak_monotone booleanNoTargetHabit sampleToday {sampleToday} {sampleToday}
    sampleToday.pred (by decide)

/-! Single-step evaluation lemmas for the backward walk of a daily habit
(claim C4). -/

theorem datesInRange_self (d : Date) : datesInRange d d = [d] := by
  simp [datesInRange, datesInRangeAux]

theorem getPeriodBoundaries_daily_of (habit : Habit) (cd : Date)
    (hfreq : habit.frequency = TargetFrequency.daily) :
    getPeriodBoundaries habit.frequency cd = (cd, cd) := by
  rw [hfreq]; rfl

theorem currentStreakAux_daily_met (habit : Habit) (D A : Finset Date) (m : Date)
    (cd : Date) (k s : Nat) (hfreq : habit.frequency = TargetFrequency.daily)
    (hmem : cd ∈ D) (hs : s + 1 ≤ 1000) (hy : 2000 ≤ cd.pred.year) :
    currentStreakAux habit D A m (k + 1) cd s =
      currentStreakAux habit D A m k cd.pred (s + 1) := by
  simp only [currentStreakAux, currentStreakStep,
    getPeriodBoundaries_daily_of habit cd hfreq, datesInRange_self,
    List.any_cons, List.any_nil, Bool.or_false, decide_eq_true_eq]
  rw [if_pos hmem, if_neg (by omega)]

theorem currentStreakAux_daily_met_break (habit : Habit) (D A : Finset Date) (m : Date)
    (cd : Date) (k s : Nat) (hfreq : habit.frequency = TargetFrequency.daily)
    (hmem : cd ∈ D) (hbrk : 1000 < s + 1 ∨ cd.pred.year < 2000) :
    currentStreakAux habit D A m (k + 1) cd s = s + 1 := by
  simp only [currentStreakAux, currentStreakStep,
    getPeriodBoundaries_daily_of habit cd hfreq, datesInRange_self,
    List.any_cons, List.any_nil, Bool.or_false, decide_eq_true_eq]
  rw [if_pos hmem, if_pos hbrk]

theorem currentStreakAux_daily_lenient (habit : Habit) (D A : Finset Date) (m : Date)
    (cd : Date) (k s : Nat) (hfreq : habit.frequency = TargetFrequency.daily)
    (hmem : cd ∉ D) (hreq : habit.is_required = false) (hlog : cd ∉ A)
    (hmin : ¬ cd < m) (hs : s + 1 ≤ 1000) (hy : 2000 ≤ cd.pred.year) :
    currentStreakAux habit D A m (k + 1) cd s =
      currentStreakAux habit D A m k cd.pred (s + 1) := by
  simp only [currentStreakAux, currentStreakStep,
    getPeriodBoundaries_daily_of habit cd hfreq, datesInRange_self,
    List.any_cons, List.any_nil, Bool.or_false, decide_eq_true_eq]
  rw [if_neg hmem, hreq, if_neg (by simp), if_neg hlog, if_neg hmin,
    if_neg (by omega)]

theorem currentStreakAux_daily_stop (habit : Habit) (D A : Finset Date) (m : Date)
    (cd : Date) (k s : Nat) (hfreq : habit.frequency = TargetFrequency.daily)
    (hmem : cd ∉ D) (hreq : habit.is_required = false) (hlog : cd ∉ A)
    (hmin : cd < m) :
    currentStreakAux habit D A m (k + 1) cd s = s := by
  simp only [currentStreakAux, currentStreakStep,
    getPeriodBoundaries_daily_of habit cd hfreq, datesInRange_self,
    List.any_cons, List.any_nil, Bool.or_false, decide_eq_true_eq]
  rw [if_neg hmem, hreq, if_neg (by simp), if_neg hlog, if_pos hmin]

theorem minLogDate_pair (a b today : Date) (hba : b < a) :
    minLogDate {a, b} today = b := by
  unfold minLogDate
  rw [dif_pos ⟨a, by simp⟩]
  apply le_antisymm
  · exact Finset.min'_le _ _ (by simp)
  · apply Finset.le_min'
    intro y hy
    rcases Finset.mem_insert.mp hy with h | h
    · rw [h]
      exact le_of_lt hba
    · rw [Finset.mem_singleton] at h
      rw [h]

/-- C4: for a daily habit that is lenient — in this code revision leniency
is `is_required = false`; the spec files the same concept under carrying a
`default_value` with non-strict streaks — with target-met logs on T and
T-2, no log on T-1, and earliest log on record T-2, the current streak
evaluated at today = T is 3: the unlogged day T-1 counts toward the
streak. -/
theorem c4_lenient_gap_streak (habit : Habit) (T : Date)
    (hfreq : habit.frequency = TargetFrequency.daily)
    (hreq : habit.is_required = false)
    (hT : T.IsValid)
    (hy1 : 2000 ≤ T.pred.year)
    (hy2 : 2000 ≤ T.pred.pred.year) :
    calculateCurrentStreak habit T {T, T.pred.pred} {T, T.pred.pred} = 3 := by
  have hv1 : T.pred.IsValid := Date.pred_isValid T hT
  have hv2 : T.pred.pred.IsValid := Date.pred_isValid _ hv1
  have hlt1 : T.pred < T := Date.pred_lt T hT
  have hlt2 : T.pred.pred < T.pred := Date.pred_lt _ hv1
  have hlt3 : T.pred.pred.pred < T.pred.pred := Date.pred_lt _ hv2
  have hmemT : T ∈ ({T, T.pred.pred} : Finset Date) := Finset.mem_insert_self _ _
  have hmem2 : T.pred.pred ∈ ({T, T.pred.pred} : Finset Date) := by simp
  have hnem1 : T.pred ∉ ({T, T.pred.pred} : Finset Date) := by
    simp only [Finset.mem_insert, Finset.mem_singleton]
    push_neg
    exact ⟨ne_of_lt hlt1, ne_of_gt hlt2⟩
  have hnem3 : T.pred.pred.pred ∉ ({T, T.pred.pred} : Finset Date) := by
    simp only [Finset.mem_insert, Finset.mem_singleton]
    push_neg
    exact ⟨ne_of_lt (lt_trans (lt_trans hlt3 hlt2) hlt1), ne_of_lt hlt3⟩
  have hmin : minLogDate {T, T.pred.pred} T = T.pred.pred :=
    minLogDate_pair T T.pred.pred T (lt_trans hlt2 hlt1)
  unfold calculateCurrentStreak
  rw [hmin]
  have e1 : currentStreakAux habit {T, T.pred.pred} {T, T.pred.pred} T.pred.pred
        1002 T 0 =
      currentStreakAux habit {T, T.pred.pred} {T, T.pred.pred} T.pred.pred
        1001 T.pred 1 :=
    currentStreakAux_daily_met _ _ _ _ _ 1001 0 hfreq hmemT (by omega) hy1
  have e2 : currentStreakAux habit {T, T.pred.pred} {T, T.pred.pred} T.pred.pred
        1001 T.pred 1 =
      currentStreakAux habit {T, T.pred.pred} {T, T.pred.pred} T.pred.pred
        1000 T.pred.pred 2 :=
    currentStreakAux_daily_lenient _ _ _ _ _ 1000 1 hfreq hnem1 hreq hnem1
      (not_lt.mpr (le_of_lt hlt2)) (by omega) hy2
  by_cases hy3 : T.pred.pred.pred.year < 2000
  · have e3 : currentStreakAux habit {T, T.pred.pred} {T, T.pred.pred} T.pred.pred
          1000 T.pred.pred 2 = 2 + 1 :=
      currentStreakAux_daily_met_break _ _ _ _ _ 999 2 hfreq hmem2 (Or.inr hy3)
    rw [e1, e2, e3]
  · have e3 : currentStreakAux habit {T, T.pred.pred} {T, T.pred.pred} T.pred.pred
          1000 T.pred.pred 2 =
        currentStreakAux habit {T, T.pred.pred} {T, T.pred.pred} T.pred.pred
          999 T.pred.pred.pred 3 :=
      currentStreakAux_daily_met _ _ _ _ _ 999 2 hfreq hmem2 (by omega) (by omega)
    have e4 : currentStreakAux habit {T, T.pred.pred} {T, T.pred.pred} T.pred.pred
          999 T.pred.pred.pred 3 = 3 :=
      currentStreakAux_daily_stop _ _ _ _ _ 998 3 hfreq hnem3 hreq hnem3 hlt3
    rw [e1, e2, e3, e4]

/-- C4 (witness): the scenario instantiated at T = 2024-05-10. -/
theorem c4_witness :
    calculateCurrentStreak
      ⟨ValueType.boolean, TargetFrequency.daily, none, none, none, none, none, none, false⟩
      sampleToday {sampleToday, sampleToday.pred.pred}
      {sampleToday, sampleToday.pred.pred} = 3 :=
  c4_lenient_gap_streak _ sampleToday rfl rfl (by decide) (by decide) (by decide)

/-! Stats Aggregator: the average-value / completion-rate section of
`HabitService._calculate_habit_stats` (claim C6). -/

/-- HALF_EVEN rounding of a rational to an integer (Python `Decimal`'s
default rounding mode, used by `quantize`). -/
def roundHalfEven (q : Rat) : Int :=
  if q - ⌊q⌋ < 1 / 2 then ⌊q⌋
  else if (1 : Rat) / 2 < q - ⌊q⌋ then ⌊q⌋ + 1
  else if ⌊q⌋ % 2 = 0 then ⌊q⌋ else ⌊q⌋ + 1

/-- `Decimal.quantize(Decimal("0.1"))`: round to one decimal place. -/
def quantize1dp (q : Rat) : Rat := (roundHalfEven (q * 10) : Rat) / 10

/-- The aggregate row returned by `HabitLogRepository.get_stats_for_habit`:
(total_logs, average_value, periods_met). -/
structure StoreStats where
  total_logs : Nat
  average_value : Option Rat
  periods_met : Nat
deriving DecidableEq, Repr

/-- `has_objective` in `_calculate_habit_stats`. -/
def hasObjective (habit : Habit) : Bool :=
  habit.target_value.isSome || habit.comparison_type.isSome

/-- The average-value / completion-rate computation of
`_calculate_habit_stats`, parameterised by the trailing window bounds it
derives and by the store's aggregate response; returns
(average_value, average_completion_rate). -/
def windowAverages (habit : Habit) (stats_start stats_end : Date)
    (store : StoreStats) : Option Rat × Option Rat :=
  if stats_start ≤ stats_end then
    (store.average_value,
     if hasObjective habit then
       some (quantize1dp ((store.periods_met : Rat) /
         ((max (countPeriodsBetween habit.frequency stats_start stats_end) 1 : Int) : Rat)
           * 100))
     else none)
  else
    (none, if hasObjective habit then some 0 else none)

/-- The trailing stats window `_calculate_habit_stats` derives:
`stats_start = _get_periods_ago(freq, today, 30)` and
`stats_end = period_start - timedelta(days=1)`. -/
def statsWindow (habit : Habit) (today : Date) : Date × Date :=
  (getPeriodsAgo habit.frequency today 30,
   (getPeriodBoundaries habit.frequency today).1.pred)

/-- The average section of `_calculate_habit_stats` on its own derived
window. -/
def calculateAverages (habit : Habit) (today : Date) (store : StoreStats) :
    Option Rat × Option Rat :=
  windowAverages habit (statsWindow habit today).1 (statsWindow habit today).2 store

/-- C6: when the trailing 30-period stats window is empty (stats_end before
stats_start), the calculation reports average_value = null, and
average_completion_rate = 0 when the habit has an objective (target_value
or comparison_type set) and null otherwise. -/
theorem c6_empty_window (habit : Habit) (stats_start stats_end : Date)
    (store : StoreStats) (hempty : stats_end < stats_start) :
    windowAverages habit stats_start stats_end store =
      (none, if hasObjective habit then some 0 else none) := by
  unfold windowAverages
  rw [if_neg (not_le.mpr hempty)]

/-- C6 (witness): the empty-window branch evaluated on a concrete habit
with an objective. -/
theorem c6_witness :
    windowAverages gteHabit ⟨2024, 5, 10⟩ ⟨2024, 5, 9⟩ ⟨0, none, 0⟩ =
      (none, if hasObjective gteHabit then some 0 else none) :=
  c6_empty_window gteHabit ⟨2024, 5, 10⟩ ⟨2024, 5, 9⟩ ⟨0, none, 0⟩ (by decide)

/-! Habit-log service: `upsert` and `modify` (claims C9, C10).  The
habit_log table is a row list with a uniqueness constraint on
(habit_id, log_date); `get_by` returns the first matching row and the ORM
updates that row in place. -/

/-- A row of the habit_log table (`HabitLog` model). -/
structure LogRow where
  habit_id : Nat
  log_date : Date
  value : Rat
deriving DecidableEq, Repr

/-- `BaseRepository.get_by(habit_id=..., log_date=...)`:
`scalars().first()` over the rows matching both columns. -/
def getByHabitAndDate (store : List LogRow) (hid : Nat) (d : Date) : Option LogRow :=
  store.find? (fun r => r.habit_id == hid && r.log_date == d)

/-- Update the first row matching (hid, d) in place by applying `f` to its
value. -/
def updateFirstRow (store : List LogRow) (hid : Nat) (d : Date) (f : Rat → Rat) :
    List LogRow :=
  match store with
  | [] => []
  | r :: rest =>
    if r.habit_id == hid && r.log_date == d then
      ⟨r.habit_id, r.log_date, f r.value⟩ :: rest
    else r :: updateFirstRow rest hid d f

/-- All rows stored for a given (habit_id, log_date). -/
def rowsFor (store : List LogRow) (hid : Nat) (d : Date) : List LogRow :=
  store.filter (fun r => r.habit_id == hid && r.log_date == d)

/-- `HabitLogService._validate_log_date`: the log date must lie inside the
habit's active window; a `None` bound (falsy in Python) skips its check. -/
def validateLogDate (habit : Habit) (log_date : Date) : Bool :=
  !(match habit.start_date with
    | some s => decide (log_date < s)
    | none => false) &&
  !(match habit.end_date with
    | some e => decide (e < log_date)
    | none => false)

/-- Errors surfaced by the log service (`NotFoundError`,
`ValidationError`). -/
inductive ServiceError
  | notFound
  | invalidDate
deriving DecidableEq, Repr

/-- `habit_repo.get(habit_id)` over the habit table. -/
def findHabit (habits : List (Nat × Habit)) (hid : Nat) : Option Habit :=
  (habits.find? (fun p => p.1 == hid)).map Prod.snd

/-- `HabitLogService.upsert`: update the existing row's value if a row for
(habit_id, log_date) exists, else create a new row. -/
def upsert (habits : List (Nat × Habit)) (store : List LogRow) (hid : Nat)
    (d : Date) (v : Rat) : Except ServiceError (List LogRow) :=
  match findHabit habits hid with
  | none => .error .notFound
  | some habit =>
    if validateLogDate habit d then
      match getByHabitAndDate store hid d with
      | some _ => .ok (updateFirstRow store hid d (fun _ => v))
      | none => .ok (store ++ [⟨hid, d, v⟩])
    else .error .invalidDate

/-- `HabitLogService.modify` (named `modifyLog` here because `modify` is
taken by the Lean core library): add `v` to the existing row's value, or
create a row with value `v` if none exists. -/
def modifyLog (habits : List (Nat × Habit)) (store : List LogRow) (hid : Nat)
    (d : Date) (v : Rat) : Except ServiceError (List LogRow) :=
  match findHabit habits hid with
  | none => .error .notFound
  | some habit =>
    if validateLogDate habit d then
      match getByHabitAndDate store hid d with
      | some _ => .ok (updateFirstRow store hid d (fun oldv => oldv + v))
      | none => .ok (store ++ [⟨hid, d, v⟩])
    else .error .invalidDate

theorem rowsFor_cons (r : LogRow) (rest : List LogRow) (hid : Nat) (d : Date) :
    rowsFor (r :: rest) hid d =
      if r.habit_id == hid && r.log_date == d then r :: rowsFor rest hid d
      else rowsFor rest hid d := by
  unfold rowsFor
  rw [List.filter_cons]

theorem getBy_eq_head (store : List LogRow) (hid : Nat) (d : Date) :
    getByHabitAndDate store hid d = (rowsFor store hid d).head? := by
  induction store with
  | nil => rfl
  | cons r rest ih =>
    rw [rowsFor_cons]
    unfold getByHabitAndDate at ih ⊢
    cases hc : (r.habit_id == hid && r.log_date == d) with
    | true => simp [List.find?_cons, hc]
    | false => simp [List.find?_cons, hc, ih]

theorem updateFirstRow_length (store : List LogRow) (hid : Nat) (d : Date)
    (f : Rat → Rat) : (updateFirstRow store hid d f).length = store.length := by
  induction store with
  | nil => rfl
  | cons r rest ih =>
    unfold updateFirstRow
    split
    · simp
    · simp [ih]

theorem rowsFor_append_match (store : List LogRow) (hid : Nat) (d : Date) (v : Rat) :
    rowsFor (store ++ [⟨hid, d, v⟩]) hid d = rowsFor store hid d ++ [⟨hid, d, v⟩] := by
  unfold rowsFor
  rw [List.filter_append]
  simp

theorem rowsFor_eq_nil_of_getBy_none (store : List LogRow) (hid : Nat) (d : Date)
    (h : getByHabitAndDate store hid d = none) : rowsFor store hid d = [] := by
  rw [getBy_eq_head] at h
  cases hr : rowsFor store hid d with
  | nil => rfl
  | cons a l =>
    rw [hr] at h
    simp at h

theorem rowsFor_updateFirstRow (store : List LogRow) (hid : Nat) (d : Date)
    (f : Rat → Rat) (r0 : LogRow) (h : rowsFor store hid d = [r0]) :
    rowsFor (updateFirstRow store hid d f) hid d = [⟨hid, d, f r0.value⟩] := by
  induction store with
  | nil => simp [rowsFor] at h
  | cons r rest ih =>
    rw [rowsFor_cons] at h
    unfold updateFirstRow
    cases hc : (r.habit_id == hid && r.log_date == d) with
    | true =>
      rw [hc] at h
      simp only [if_true] at h
      rw [List.cons.injEq] at h
      obtain ⟨hrr, hrest⟩ := h
      have hfields : r.habit_id = hid ∧ r.log_date = d := by
        simpa using hc
      rw [if_pos rfl, rowsFor_cons]
      have hcnew : ((⟨r.habit_id, r.log_date, f r.value⟩ : LogRow).habit_id == hid &&
          (⟨r.habit_id, r.log_date, f r.value⟩ : LogRow).log_date == d) = true := hc
      rw [if_pos hcnew, hrest, hfields.1, hfields.2, hrr]
    | false =>
      rw [hc] at h
      simp only [Bool.false_eq_true, if_false] at h
      rw [if_neg (by simp), rowsFor_cons, if_neg (by simp [hc])]
      exact ih h

theorem list_singleton_of_head (l : List LogRow) (a : LogRow)
    (h : l.head? = some a) (hl : l.length ≤ 1) : l = [a] := by
  cases l with
  | nil => simp at h
  | cons b t =>
    simp only [List.head?_cons, Option.some.injEq] at h
    cases t with
    | nil => rw [h]
    | cons c u => simp at hl

theorem upsert_existing (habits : List (Nat × Habit)) (habit : Habit)
    (store : List LogRow) (hid : Nat) (d : Date) (v : Rat) (r0 : LogRow)
    (hfound : findHabit habits hid = some habit)
    (hvalid : validateLogDate habit d = true)
    (h : rowsFor store hid d = [r0]) :
    upsert habits store hid d v = .ok (updateFirstRow store hid d (fun _ => v)) ∧
    rowsFor (updateFirstRow store hid d (fun _ => v)) hid d = [⟨hid, d, v⟩] ∧
    (updateFirstRow store hid d (fun _ => v)).length = store.length := by
  have hget : getByHabitAndDate store hid d = some r0 := by
    rw [getBy_eq_head, h]
    rfl
  refine ⟨?_, ?_, updateFirstRow_length store hid d _⟩
  · unfold upsert
    rw [hfound]
    simp only [hvalid, if_true, hget]
  · exact rowsFor_updateFirstRow store hid d _ r0 h

/-- C9: for an existing habit and a date in its active window, on a table
satisfying the (habit_id, log_date) uniqueness constraint, calling upsert
twice with the same (habit, date, value) succeeds both times and leaves
exactly one row for (habit_id, log_date) holding that value; the second
call updates the row in place and creates no second row. -/
theorem c9_upsert_idempotent (habits : List (Nat × Habit)) (habit : Habit)
    (store : List LogRow) (hid : Nat) (d : Date) (v : Rat)
    (hfound : findHabit habits hid = some habit)
    (hvalid : validateLogDate habit d = true)
    (huniq : (rowsFor store hid d).length ≤ 1) :
    ∃ s1 s2 : List LogRow,
      upsert habits store hid d v = .ok s1 ∧
      upsert habits s1 hid d v = .ok s2 ∧
      rowsFor s1 hid d = [⟨hid, d, v⟩] ∧
      rowsFor s2 hid d = [⟨hid, d, v⟩] ∧
      s2.length = s1.length := by
  cases hget : getByHabitAndDate store hid d with
  | none =>
    have hnil := rowsFor_eq_nil_of_getBy_none store hid d hget
    have h1 : upsert habits store hid d v = .ok (store ++ [⟨hid, d, v⟩]) := by
      unfold upsert
      rw [hfound]
      simp only [hvalid, if_true, hget]
    have hs1 : rowsFor (store ++ [⟨hid, d, v⟩]) hid d = [⟨hid, d, v⟩] := by
      rw [rowsFor_append_match, hnil]
      rfl
    obtain ⟨h2, hs2, hlen⟩ := upsert_existing habits habit (store ++ [⟨hid, d, v⟩])
      hid d v ⟨hid, d, v⟩ hfound hvalid hs1
    exact ⟨store ++ [⟨hid, d, v⟩], _, h1, h2, hs1, by simpa using hs2, hlen⟩
  | some r =>
    have hr : rowsFor store hid d = [r] := by
      apply list_singleton_of_head _ _ _ huniq
      rw [← getBy_eq_head]
      exact hget
    obtain ⟨h1, hs1, hlen1⟩ := upsert_existing habits habit store hid d v r
      hfound hvalid hr
    obtain ⟨h2, hs2, hlen2⟩ := upsert_existing habits habit
      (updateFirstRow store hid d (fun _ => v)) hid d v ⟨hid, d, v⟩ hfound hvalid hs1
    exact ⟨_, _, h1, h2, hs1, by simpa using hs2, hlen2⟩

/-- C9 (witness): upserting value 5 twice into an empty table for habit 1. -/
theorem c9_witness :
    ∃ s1 s2 : List LogRow,
      upsert [(1, gteHabit)] [] 1 sampleToday (5 : Rat) = .ok s1 ∧
      upsert [(1, gteHabit)] s1 1 sampleToday (5 : Rat) = .ok s2 ∧
      rowsFor s1 1 sampleToday = [⟨1, sampleToday, 5⟩] ∧
      rowsFor s2 1 sampleToday = [⟨1, sampleToday, 5⟩] ∧
      s2.length = s1.length :=
  c9_upsert_idempotent [(1, gteHabit)] gteHabit [] 1 sampleToday 5 rfl rfl
    (by decide)

/-- C10: modify accumulates rather than replaces.  For an existing habit
and an in-window date: if a (unique) row already exists for
(habit_id, log_date) with value v0, `modify` leaves that single row with
value v0 + v, creating no new row, while `upsert` on the same store
overwrites the stored value with v; if no row exists, `modify` creates one
with value v. -/
theorem c10_modify_accumulates (habits : List (Nat × Habit)) (habit : Habit)
    (store : List LogRow) (hid : Nat) (d : Date) (v : Rat)
    (hfound : findHabit habits hid = some habit)
    (hvalid : validateLogDate habit d = true) :
    (∀ r0 : LogRow, rowsFor store hid d = [r0] →
      modifyLog habits store hid d v =
        .ok (updateFirstRow store hid d (fun oldv => oldv + v)) ∧
      rowsFor (updateFirstRow store hid d (fun oldv => oldv + v)) hid d =
        [⟨hid, d, r0.value + v⟩] ∧
      (updateFirstRow store hid d (fun oldv => oldv + v)).length = store.length ∧
      upsert habits store hid d v = .ok (updateFirstRow store hid d (fun _ => v)) ∧
      rowsFor (updateFirstRow store hid d (fun _ => v)) hid d = [⟨hid, d, v⟩]) ∧
    (rowsFor store hid d = [] →
      modifyLog habits store hid d v = .ok (store ++ [⟨hid, d, v⟩]) ∧
      rowsFor (store ++ [⟨hid, d, v⟩]) hid d = [⟨hid, d, v⟩]) := by
  constructor
  · intro r0 h
    have hget : getByHabitAndDate store hid d = some r0 := by
      rw [getBy_eq_head, h]
      rfl
    obtain ⟨hu1, hu2, _⟩ := upsert_existing habits habit store hid d v r0
      hfound hvalid h
    refine ⟨?_, ?_, updateFirstRow_length store hid d _, hu1, hu2⟩
    · unfold modifyLog
      rw [hfound]
      simp only [hvalid, if_true, hget]
    · exact rowsFor_updateFirstRow store hid d _ r0 h
  · intro hnil
    have hget : getByHabitAndDate store hid d = none := by
      rw [getBy_eq_head, hnil]
      rfl
    constructor
    · unfold modifyLog
      rw [hfound]
      simp only [hvalid, if_true, hget]
    · rw [rowsFor_append_match, hnil]
      rfl

/-- C10 (witness): modifying habit 1's existing row of value 2 by 5 on a
one-row table, and creating a fresh row on the empty part of the
conjunction via the same theorem at the singleton store. -/
theorem c10_witness :
    modifyLog [(1, gteHabit)] [⟨1, sampleToday, 2⟩] 1 sampleToday (5 : Rat) =
      .ok (updateFirstRow [⟨1, sampleToday, 2⟩] 1 sampleToday (fun oldv => oldv + 5)) ∧
    rowsFor (updateFirstRow [⟨1, sampleToday, 2⟩] 1 sampleToday (fun oldv => oldv + 5))
      1 sampleToday = [⟨1, sampleToday, (2 : Rat) + 5⟩] := by
  have h := (c10_modify_accumulates [(1, gteHabit)] gteHabit [⟨1, sampleToday, 2⟩]
    1 sampleToday 5 rfl rfl).1 ⟨1, sampleToday, 2⟩ (by decide)
  exact ⟨h.1, h.2.1⟩

/-! History Builder (claim C5): `_generate_periods` and its tiling
properties.  First, explicit characterisations of the period boundaries
for each frequency. -/

/-- `HabitService._generate_periods`' `while current <= end_date` loop,
fuel-indexed; each iteration moves `current` past the period end, so it
advances by at least one day per step. -/
def generatePeriodsAux (frequency : TargetFrequency) :
    Nat → Date → Date → List (Date × Date)
  | 0, _, _ => []
  | fuel + 1, current, end_date =>
    if current ≤ end_date then
      let pb := getPeriodBoundaries frequency current
      if end_date < pb.1 then []
      else (pb.1, min pb.2 end_date) ::
        generatePeriodsAux frequency fuel pb.2.succ end_date
    else []

/-- `HabitService._generate_periods`. -/
def generatePeriods (frequency : TargetFrequency) (start_date end_date : Date) :
    List (Date × Date) :=
  generatePeriodsAux frequency
    ((end_date.toOrdinal - start_date.toOrdinal).toNat + 1) start_date end_date

theorem Date.weekday_nonneg (d : Date) : 0 ≤ d.weekday :=
  Int.emod_nonneg _ (by norm_num)

theorem Date.weekday_lt (d : Date) : d.weekday < 7 :=
  Int.emod_lt_of_pos _ (by norm_num)

theorem periodBoundaries_weekly (d : Date) :
    getPeriodBoundaries TargetFrequency.weekly d =
      (d.subDays d.weekday.toNat, (d.subDays d.weekday.toNat).addDays 6) := rfl

theorem weekStart_ordinal (d : Date) (hd : d.IsValid) :
    (d.subDays d.weekday.toNat).toOrdinal = d.toOrdinal - d.weekday := by
  rw [Date.toOrdinal_subDays d _ hd, Int.toNat_of_nonneg (Date.weekday_nonneg d)]

theorem periodBoundaries_monthly (d : Date) (hd : d.IsValid) :
    getPeriodBoundaries TargetFrequency.monthly d =
      (⟨d.year, d.month, 1⟩, ⟨d.year, d.month, daysInMonth d.year d.month⟩) := by
  obtain ⟨h1, h2, h3, h4⟩ := hd
  unfold getPeriodBoundaries
  dsimp only
  by_cases hm : d.month = 12
  · rw [if_pos hm, hm]
    have : daysInMonth d.year 12 = 31 := by unfold daysInMonth; norm_num
    rw [this]
  · rw [if_neg hm]
    unfold Date.pred
    dsimp only
    rw [if_neg (by omega), if_pos (by omega)]
    rw [show d.month + 1 - 1 = d.month by ring]

theorem periodBoundaries_spec (f : TargetFrequency) (d : Date) (hd : d.IsValid) :
    (getPeriodBoundaries f d).1.IsValid ∧ (getPeriodBoundaries f d).2.IsValid ∧
    (getPeriodBoundaries f d).1 ≤ d ∧ d ≤ (getPeriodBoundaries f d).2 := by
  cases f with
  | daily => exact ⟨hd, hd, le_refl d, le_refl d⟩
  | weekly =>
    rw [periodBoundaries_weekly]
    have hv1 : (d.subDays d.weekday.toNat).IsValid := Date.subDays_isValid d _ hd
    have hv2 := Date.addDays_isValid _ 6 hv1
    have ho1 := weekStart_ordinal d hd
    have ho2 : ((d.subDays d.weekday.toNat).addDays 6).toOrdinal =
        d.toOrdinal - d.weekday + 6 := by
      rw [Date.toOrdinal_addDays _ 6 hv1, ho1]
      norm_num
    have hw1 := Date.weekday_nonneg d
    have hw2 := Date.weekday_lt d
    refine ⟨hv1, hv2, ?_, ?_⟩
    · rw [← Date.toOrdinal_le_iff _ _ hv1 hd]
      omega
    · rw [← Date.toOrdinal_le_iff _ _ hd hv2]
      omega
  | monthly =>
    rw [periodBoundaries_monthly d hd]
    obtain ⟨h1, h2, h3, h4⟩ := hd
    have hdim := daysInMonth_pos d.year d.month
    refine ⟨⟨h1, h2, by dsimp only; omega, by dsimp only; omega⟩,
      ⟨h1, h2, by dsimp only; omega, by dsimp only; omega⟩, ?_, ?_⟩
    · rw [Date.le_def]
      dsimp only
      omega
    · rw [Date.le_def]
      dsimp only
      omega

theorem periodBoundaries_const (f : TargetFrequency) (d x : Date) (hd : d.IsValid)
    (hx : x.IsValid) (h1 : (getPeriodBoundaries f d).1 ≤ x)
    (h2 : x ≤ (getPeriodBoundaries f d).2) :
    getPeriodBoundaries f x = getPeriodBoundaries f d := by
  cases f with
  | daily =>
    have hxd : x = d := le_antisymm h2 h1
    rw [hxd]
  | weekly =>
    rw [periodBoundaries_weekly d] at h1 h2
    rw [periodBoundaries_weekly x, periodBoundaries_weekly d]
    have hv1 : (d.subDays d.weekday.toNat).IsValid := Date.subDays_isValid d _ hd
    have hv2 := Date.addDays_isValid _ 6 hv1
    have ho1 := weekStart_ordinal d hd
    have ho2 : ((d.subDays d.weekday.toNat).addDays 6).toOrdinal =
        d.toOrdinal - d.weekday + 6 := by
      rw [Date.toOrdinal_addDays _ 6 hv1, ho1]
      norm_num
    rw [← Date.toOrdinal_le_iff _ _ hv1 hx] at h1
    rw [← Date.toOrdinal_le_iff _ _ hx hv2] at h2
    have hwsx : (x.subDays x.weekday.toNat).toOrdinal =
        (d.subDays d.weekday.toNat).toOrdinal := by
      rw [weekStart_ordinal x hx, ho1]
      unfold Date.weekday at *
      omega
    have hws : x.subDays x.weekday.toNat = d.subDays d.weekday.toNat :=
      Date.toOrdinal_inj _ _ (Date.subDays_isValid x _ hx) hv1 hwsx
    rw [hws]
  | monthly =>
    rw [periodBoundaries_monthly d hd] at h1 h2
    rw [periodBoundaries_monthly x hx, periodBoundaries_monthly d hd]
    rw [Date.le_def] at h1 h2
    obtain ⟨hx1, hx2, hx3, hx4⟩ := hx
    dsimp only at h1 h2
    have hy : x.year = d.year := by omega
    have hm : x.month = d.month := by omega
    rw [hy, hm]

theorem periodBoundaries_next (f : TargetFrequency) (d : Date) (hd : d.IsValid) :
    (getPeriodBoundaries f ((getPeriodBoundaries f d).2.succ)).1 =
      (getPeriodBoundaries f d).2.succ := by
  cases f with
  | daily => rfl
  | weekly =>
    have hv1 : (d.subDays d.weekday.toNat).IsValid := Date.subDays_isValid d _ hd
    have hv2 := Date.addDays_isValid _ 6 hv1
    have ho1 := weekStart_ordinal d hd
    have ho2 : ((d.subDays d.weekday.toNat).addDays 6).toOrdinal =
        d.toOrdinal - d.weekday + 6 := by
      rw [Date.toOrdinal_addDays _ 6 hv1, ho1]
      norm_num
    rw [periodBoundaries_weekly d]
    dsimp only
    rw [periodBoundaries_weekly]
    dsimp only
    have ho3 : ((d.subDays d.weekday.toNat).addDays 6).succ.toOrdinal =
        d.toOrdinal - d.weekday + 7 := by
      rw [Date.toOrdinal_succ _ hv2, ho2]
      ring
    have hwd : ((d.subDays d.weekday.toNat).addDays 6).succ.weekday = 0 := by
      unfold Date.weekday at *
      omega
    rw [hwd]
    rfl
  | monthly =>
    rw [periodBoundaries_monthly d hd]
    dsimp only
    obtain ⟨h1, h2, h3, h4⟩ := hd
    have hdim := daysInMonth_pos d.year d.month
    unfold Date.succ
    dsimp only
    rw [if_neg (by omega)]
    by_cases hm : d.month < 12
    · rw [if_pos hm]
      have hz : Date.IsValid ⟨d.year, d.month + 1, 1⟩ :=
        ⟨by dsimp only; omega, by dsimp only; omega, by dsimp only; omega,
          daysInMonth_pos _ _⟩
      rw [periodBoundaries_monthly _ hz]
    · rw [if_neg hm]
      have hz : Date.IsValid ⟨d.year + 1, 1, 1⟩ :=
        ⟨by dsimp only; omega, by dsimp only; omega, by dsimp only; omega,
          daysInMonth_pos _ _⟩
      rw [periodBoundaries_monthly _ hz]

theorem monthEnd_succ (s : Date) (hs : s.IsValid) :
    (⟨s.year, s.month, daysInMonth s.year s.month⟩ : Date).succ =
      if s.month < 12 then (⟨s.year, s.month + 1, 1⟩ : Date) else ⟨s.year + 1, 1, 1⟩ := by
  obtain ⟨h1, h2, h3, h4⟩ := hs
  unfold Date.succ
  dsimp only
  rw [if_neg (by omega)]

theorem countPeriods_base (f : TargetFrequency) (s e : Date) (hs : s.IsValid)
    (he : e.IsValid) (hse : s ≤ e) (hle : e ≤ (getPeriodBoundaries f s).2) :
    countPeriodsBetween f s e = 1 := by
  have hconst := periodBoundaries_const f s e hs he
    (le_trans (periodBoundaries_spec f s hs).2.2.1 hse) hle
  cases f with
  | daily =>
    have hxd : e = s := le_antisymm hle hse
    subst hxd
    unfold countPeriodsBetween
    rw [if_neg (lt_irrefl _)]
    dsimp only
    omega
  | weekly =>
    rw [periodBoundaries_weekly e, periodBoundaries_weekly s] at hconst
    have hws : e.subDays e.weekday.toNat = s.subDays s.weekday.toNat :=
      congrArg Prod.fst hconst
    unfold countPeriodsBetween
    rw [if_neg (not_lt.mpr hse)]
    dsimp only
    rw [hws]
    omega
  | monthly =>
    rw [periodBoundaries_monthly e he, periodBoundaries_monthly s hs] at hconst
    have hfst : (⟨e.year, e.month, 1⟩ : Date) = ⟨s.year, s.month, 1⟩ :=
      congrArg Prod.fst hconst
    rw [Date.mk.injEq] at hfst
    obtain ⟨hy, hm, -⟩ := hfst
    unfold countPeriodsBetween
    rw [if_neg (not_lt.mpr hse)]
    dsimp only
    omega

theorem countPeriods_step (f : TargetFrequency) (s e : Date) (hs : s.IsValid)
    (he : e.IsValid) (hse : s ≤ e) (hlt : (getPeriodBoundaries f s).2 < e) :
    countPeriodsBetween f s e =
      1 + countPeriodsBetween f (getPeriodBoundaries f s).2.succ e := by
  have hpev : (getPeriodBoundaries f s).2.IsValid := (periodBoundaries_spec f s hs).2.1
  have hzv := Date.succ_isValid _ hpev
  have hze : (getPeriodBoundaries f s).2.succ ≤ e := by
    rw [← Date.toOrdinal_le_iff _ _ hzv he, Date.toOrdinal_succ _ hpev]
    have := (Date.toOrdinal_lt_iff _ _ hpev he).mpr hlt
    omega
  cases f with
  | daily =>
    have hb : getPeriodBoundaries TargetFrequency.daily s = (s, s) := rfl
    rw [hb] at hze ⊢
    unfold countPeriodsBetween
    rw [if_neg (not_lt.mpr hse), if_neg (not_lt.mpr hze)]
    dsimp only
    have h1 := Date.toOrdinal_succ s hs
    omega
  | weekly =>
    have hb := periodBoundaries_weekly s
    rw [hb] at hze ⊢
    unfold countPeriodsBetween
    rw [if_neg (not_lt.mpr hse), if_neg (not_lt.mpr hze)]
    dsimp only
    have hv1 : (s.subDays s.weekday.toNat).IsValid := Date.subDays_isValid s _ hs
    have hv2 := Date.addDays_isValid _ 6 hv1
    have ho1 := weekStart_ordinal s hs
    have ho2 : ((s.subDays s.weekday.toNat).addDays 6).toOrdinal =
        s.toOrdinal - s.weekday + 6 := by
      rw [Date.toOrdinal_addDays _ 6 hv1, ho1]
      norm_num
    have ho3 : ((s.subDays s.weekday.toNat).addDays 6).succ.toOrdinal =
        s.toOrdinal - s.weekday + 7 := by
      rw [Date.toOrdinal_succ _ hv2, ho2]
      ring
    have hwd : ((s.subDays s.weekday.toNat).addDays 6).succ.weekday = 0 := by
      unfold Date.weekday at *
      omega
    rw [hwd]
    have hsub0 : ((s.subDays s.weekday.toNat).addDays 6).succ.subDays (Int.toNat 0) =
        ((s.subDays s.weekday.toNat).addDays 6).succ := rfl
    rw [hsub0]
    omega
  | monthly =>
    have hb := periodBoundaries_monthly s hs
    rw [hb] at hze ⊢
    obtain ⟨h1, h2, h3, h4⟩ := hs
    unfold countPeriodsBetween
    rw [if_neg (not_lt.mpr hse), if_neg (not_lt.mpr hze)]
    dsimp only
    rw [monthEnd_succ s ⟨h1, h2, h3, h4⟩]
    by_cases hm : s.month < 12
    · rw [if_pos hm]
      dsimp only
      omega
    · rw [if_neg hm]
      dsimp only
      omega

theorem generatePeriodsAux_nil (f : TargetFrequency) (fuel : Nat) (current e : Date)
    (h : ¬ current ≤ e) : generatePeriodsAux f fuel current e = [] := by
  cases fuel with
  | zero => rfl
  | succ k =>
    unfold generatePeriodsAux
    rw [if_neg h]

theorem generatePeriodsAux_spec (f : TargetFrequency) :
    ∀ (fuel : Nat) (current e : Date), current.IsValid → e.IsValid →
      current ≤ e → (e.toOrdinal - current.toOrdinal).toNat < fuel →
      (generatePeriodsAux f fuel current e).head?.map Prod.fst =
          some (getPeriodBoundaries f current).1 ∧
      (generatePeriodsAux f fuel current e).getLast?.map Prod.snd = some e ∧
      List.Chain' (fun p q => p.2.succ = q.1 ∧ p.2 < q.1)
        (generatePeriodsAux f fuel current e) ∧
      (∀ p ∈ generatePeriodsAux f fuel current e,
        p.1 ≤ p.2 ∧ p.1.IsValid ∧ p.2.IsValid) ∧
      ((generatePeriodsAux f fuel current e).length : Int) =
        countPeriodsBetween f current e := by
  intro fuel
  induction fuel with
  | zero =>
    intro current e _ _ _ hfuel
    omega
  | succ k ih =>
    intro current e hcv hev hce hfuel
    obtain ⟨hpsv, hpev, hps_le, hle_pe⟩ := periodBoundaries_spec f current hcv
    unfold generatePeriodsAux
    rw [if_pos hce]
    rw [if_neg (not_lt.mpr (le_trans hps_le hce))]
    by_cases hcase : e ≤ (getPeriodBoundaries f current).2
    · have hmin : min (getPeriodBoundaries f current).2 e = e := min_eq_right hcase
      have hnext : ¬ (getPeriodBoundaries f current).2.succ ≤ e :=
        not_le.mpr (lt_of_le_of_lt hcase (Date.lt_succ _ hpev))
      rw [generatePeriodsAux_nil f k _ e hnext, hmin]
      refine ⟨rfl, rfl, List.chain'_singleton _, ?_, ?_⟩
      · intro p hp
        rw [List.mem_singleton] at hp
        rw [hp]
        exact ⟨le_trans hps_le hce, hpsv, hev⟩
      · rw [List.length_singleton]
        rw [countPeriods_base f current e hcv hev hce hcase]
        norm_num
    · push_neg at hcase
      have hmin : min (getPeriodBoundaries f current).2 e =
          (getPeriodBoundaries f current).2 := min_eq_left (le_of_lt hcase)
      have hzv := Date.succ_isValid _ hpev
      have hze : (getPeriodBoundaries f current).2.succ ≤ e := by
        rw [← Date.toOrdinal_le_iff _ _ hzv hev, Date.toOrdinal_succ _ hpev]
        have := (Date.toOrdinal_lt_iff _ _ hpev hev).mpr hcase
        omega
      have hfuel' :
          (e.toOrdinal - (getPeriodBoundaries f current).2.succ.toOrdinal).toNat < k := by
        rw [Date.toOrdinal_succ _ hpev]
        have hc_pe : current.toOrdinal ≤ (getPeriodBoundaries f current).2.toOrdinal :=
          (Date.toOrdinal_le_iff _ _ hcv hpev).mpr hle_pe
        have hpe_e : (getPeriodBoundaries f current).2.toOrdinal < e.toOrdinal :=
          (Date.toOrdinal_lt_iff _ _ hpev hev).mpr hcase
        omega
      obtain ⟨ih1, ih2, ih3, ih4, ih5⟩ := ih _ e hzv hev hze hfuel'
      rw [periodBoundaries_next f current hcv] at ih1
      rw [hmin]
      cases htail : generatePeriodsAux f k ((getPeriodBoundaries f current).2.succ) e with
      | nil =>
        rw [htail] at ih2
        simp at ih2
      | cons p t =>
        rw [htail] at ih1 ih2 ih3 ih4 ih5
        have hp1 : p.1 = (getPeriodBoundaries f current).2.succ := by
          simp only [List.head?_cons, Option.map_some] at ih1
          exact (Option.some.injEq _ _).mp ih1 |>.symm ▸ rfl
        refine ⟨rfl, ?_, ?_, ?_, ?_⟩
        · rw [List.getLast?_cons_cons]
          exact ih2
        · rw [List.chain'_cons]
          refine ⟨⟨hp1.symm, ?_⟩, ih3⟩
          · rw [hp1]
            exact Date.lt_succ _ hpev
        · intro q hq
          rcases List.mem_cons.mp hq with h | h
          · rw [h]
            exact ⟨le_trans hps_le hle_pe, hpsv, hpev⟩
          · exact ih4 q h
        · rw [List.length_cons]
          rw [countPeriods_step f current e hcv hev hce hcase]
          push_cast
          omega

/-- C5 (counterexample): for the weekly frequency with startDate Wednesday
2024-01-03 and endDate 2024-01-04, `_generate_periods` produces a single
period starting on Monday 2024-01-01 — not at startDate — so the period
list does not tile the closed range [startDate, endDate]. -/
theorem c5_counterexample :
    generatePeriods TargetFrequency.weekly ⟨2024, 1, 3⟩ ⟨2024, 1, 4⟩ =
      [(⟨2024, 1, 1⟩, ⟨2024, 1, 4⟩)] ∧
    (⟨2024, 1, 1⟩ : Date) ≠ ⟨2024, 1, 3⟩ := by
  constructor <;> decide

/-- C5 (amended): for every frequency and valid dates startDate ≤ endDate,
the period list produced by `_generate_periods` tiles the closed range
from the boundary start of the period containing startDate up to endDate
exactly: the first period starts at that boundary start (which equals
startDate only when startDate is period-aligned), the last period ends at
endDate, consecutive periods are adjacent (next start = previous end + 1
day) with no gaps or overlaps, the list is in ascending order, and the
number of periods equals `_count_periods_between(frequency, startDate,
endDate)`. -/
theorem c5_tiling (f : TargetFrequency) (s e : Date) (hs : s.IsValid)
    (he : e.IsValid) (hse : s ≤ e) :
    (generatePeriods f s e).head?.map Prod.fst =
        some (getPeriodBoundaries f s).1 ∧
    (generatePeriods f s e).getLast?.map Prod.snd = some e ∧
    List.Chain' (fun p q => p.2.succ = q.1 ∧ p.2 < q.1) (generatePeriods f s e) ∧
    (∀ p ∈ generatePeriods f s e, p.1 ≤ p.2 ∧ p.1.IsValid ∧ p.2.IsValid) ∧
    ((generatePeriods f s e).length : Int) = countPeriodsBetween f s e := by
  unfold generatePeriods
  exact generatePeriodsAux_spec f _ s e hs he hse (by omega)

/-- C5 (witness): the tiling theorem applied to the daily frequency over
2024-01-01..2024-01-03. -/
theorem c5_witness :
    (generatePeriods TargetFrequency.daily ⟨2024, 1, 1⟩ ⟨2024, 1, 3⟩).head?.map Prod.fst =
        some (getPeriodBoundaries TargetFrequency.daily ⟨2024, 1, 1⟩).1 ∧
    (generatePeriods TargetFrequency.daily ⟨2024, 1, 1⟩ ⟨2024, 1, 3⟩).getLast?.map
        Prod.snd = some ⟨2024, 1, 3⟩ ∧
    List.Chain' (fun p q => p.2.succ = q.1 ∧ p.2 < q.1)
      (generatePeriods TargetFrequency.daily ⟨2024, 1, 1⟩ ⟨2024, 1, 3⟩) ∧
    (∀ p ∈ generatePeriods TargetFrequency.daily ⟨2024, 1, 1⟩ ⟨2024, 1, 3⟩,
      p.1 ≤ p.2 ∧ p.1.IsValid ∧ p.2.IsValid) ∧
    ((generatePeriods TargetFrequency.daily ⟨2024, 1, 1⟩ ⟨2024, 1, 3⟩).length : Int) =
      countPeriodsBetween TargetFrequency.daily ⟨2024, 1, 1⟩ ⟨2024, 1, 3⟩ :=
  c5_tiling TargetFrequency.daily ⟨2024, 1, 1⟩ ⟨2024, 1, 3⟩ (by decide) (by decide)
    (by decide)
